import Mathlib

/-!
Verification development for the Smart-Audio repository.

The Python sources are shallowly embedded: pure numeric routines from
`audio_utils/cleaner.py` become functions over `List ℝ` (floating point is
idealised as the reals), the translator from `translation/translator.py` and
the orchestrator from `app.py` become functions over `String`s and path
component lists, and calls into external libraries (librosa's STFT/iSTFT and
resampling loader, scipy's Butterworth coefficients and `lfilter`) are
abstracted as function parameters, since their implementations are not part
of this repository.
-/

namespace SmartAudio

/-! ### Configuration constants, from `config/settings.py` and `config.py` -/

/-- `AUDIO_SETTINGS["standard_sample_rate"]` (and `STANDARD_SAMPLE_RATE`): 16 kHz. -/
def standardSampleRate : Nat := 16000

/-- `TEMP_DIR = BASE_DIR / "temp"`, modelled as a component list with an opaque
base component standing for `BASE_DIR`. -/
def tempDir : List String := ["BASE", "temp"]

/-- Keys of `TRANSLATION_SETTINGS["supported_languages"]`. -/
def supportedLanguages : List String :=
  ["en", "es", "fr", "de", "it", "pt", "ru", "ja", "ko", "zh", "ar", "hi"]

/-- `TRANSLATION_SETTINGS["chunk_size"]`. -/
def translationChunkSize : Nat := 500

/-- `TRANSLATION_SETTINGS["retry_attempts"]`. -/
def retryAttempts : Nat := 3

/-- `SUMMARIZATION_SETTINGS["chunk_size"]`, the default used by `app.py`. -/
def summarizationChunkSize : Nat := 1000

/-! ### File-system paths

A path is a list of components; the last component is the file name, as in
`pathlib.Path`. -/

/-- `pathlib.Path.stem` of a file name: the name with its final extension
removed.  The final dot counts as an extension separator only when it is
neither the first nor the last character of the name. -/
def stemOf (name : String) : String :=
  let cs := name.toList
  let dots := (List.range cs.length).filter (fun i => cs.getD i ' ' == '.')
  match dots with
  | [] => name
  | d :: ds =>
    let j := (d :: ds).getLast (List.cons_ne_nil d ds)
    if j = 0 ∨ j = cs.length - 1 then name else String.mk (cs.take j)

/-- `pathlib.Path.parent`: the path with its last component removed. -/
def parentOf (p : List String) : List String := p.dropLast

/-- `pathlib.Path.parents`: every proper ancestor of the path. -/
def parentsOf (p : List String) : List (List String) :=
  (List.range p.length).map (fun k => p.take k)

/-- The output path `clean_audio` generates when none is supplied:
`TEMP_DIR / f"{input_path.stem}_cleaned.wav"` (`audio_utils/cleaner.py`,
lines 27-29). -/
def defaultCleanedOutput (inputPath : List String) : List String :=
  tempDir ++ [stemOf (inputPath.getLastD "") ++ "_cleaned.wav"]

/-! ### Signal primitives, from `audio_utils/cleaner.py`

All sample buffers are `List ℝ`. -/

noncomputable section Signal

/-- `np.mean` over a one-dimensional buffer (Lean's `x / 0 = 0` convention
stands in for NumPy's NaN on an empty slice). -/
def mean (l : List ℝ) : ℝ := l.sum / l.length

/-- `AudioCleaner._trim_silence`: drop leading and trailing samples whose
absolute amplitude does not exceed `10 ** (threshold_db / 20)`. -/
def trimSilence (audio : List ℝ) (thresholdDb : ℝ) : List ℝ :=
  let threshold := (10 : ℝ) ^ (thresholdDb / 20)
  let nonSilent := (List.range audio.length).filter
    (fun i => decide (threshold < |audio.getD i 0|))
  match nonSilent with
  | [] => audio
  | s :: rest =>
    let e := (s :: rest).getLast (List.cons_ne_nil s rest) + 1
    (audio.take e).drop s

/-- `np.sqrt(np.mean(audio ** 2))`: root-mean-square amplitude. -/
def rmsOf (audio : List ℝ) : ℝ :=
  Real.sqrt (mean (audio.map (fun x => x ^ 2)))

/-- `AudioCleaner._normalize_volume`: scale toward `10 ** (target_db / 20)`
RMS, with the gain capped at `10.0`; buffers with non-positive RMS are
returned unchanged. -/
def normalizeVolume (audio : List ℝ) (targetDb : ℝ) : List ℝ :=
  let rms := rmsOf audio
  if 0 < rms then
    let targetAmplitude := (10 : ℝ) ^ (targetDb / 20)
    let gain := min (targetAmplitude / rms) 10
    audio.map (fun x => x * gain)
  else audio

/-- Per-frequency noise floor used by the spectral gate: the mean magnitude
of the first `nf` time frames of one frequency row
(`np.mean(magnitude[:, :noise_samples//512], axis=1)`). -/
def noiseFloorOf (nf : Nat) (row : List ℂ) : ℝ :=
  mean ((row.map (fun z => Complex.abs z)).take nf)

/-- One frequency row of `AudioCleaner._reduce_noise` between STFT and
inverse STFT: the binary mask `magnitude > noise_floor * 2.0` is applied to
the magnitude, and the row is rebuilt as `magnitude * np.exp(1j * phase)`. -/
def spectralGateRow (nf : Nat) (row : List ℂ) : List ℂ :=
  let noiseFloor := noiseFloorOf nf row
  row.map (fun z =>
    (((if noiseFloor * 2 < Complex.abs z then Complex.abs z else 0) : ℝ) : ℂ)
      * Complex.exp (Complex.arg z * Complex.I))

/-- `AudioCleaner._reduce_noise`: spectral gating against a noise floor
estimated from the frames of the first `int(0.5 * sr)` samples
(`noise_samples // 512` frames).  The STFT and its inverse are the librosa
calls, passed in as parameters. -/
def reduceNoise (stft : List ℝ → List (List ℂ)) (istft : List (List ℂ) → List ℝ)
    (audio : List ℝ) (sr : Nat) : List ℝ :=
  let noiseFrames := (sr / 2) / 512
  istft ((stft audio).map (spectralGateRow noiseFrames))

/-- `AudioCleaner._apply_high_pass_filter`: scipy's first-order Butterworth
high-pass at `cutoff / (0.5 * sr)` normalized cutoff, applied with
`lfilter`.  `butter` and `lfilter` are the scipy calls, passed in as
parameters (`butter` returns the coefficient data). -/
def applyHighPassFilter (butter : ℝ → ℝ × ℝ × ℝ)
    (lfilter : ℝ × ℝ × ℝ → List ℝ → List ℝ)
    (audio : List ℝ) (sr : Nat) (cutoff : ℝ) : List ℝ :=
  let nyquist := 0.5 * (sr : ℝ)
  let normalCutoff := cutoff / nyquist
  lfilter (butter normalCutoff) audio

/-- `AudioCleaner._apply_cleaning_pipeline`: trim silence, then normalize
volume, then reduce noise, then high-pass filter, in this order, with the
source's default thresholds. -/
def applyCleaningPipeline (stft : List ℝ → List (List ℂ))
    (istft : List (List ℂ) → List ℝ) (butter : ℝ → ℝ × ℝ × ℝ)
    (lfilter : ℝ × ℝ × ℝ → List ℝ → List ℝ)
    (audio : List ℝ) (sr : Nat) : List ℝ :=
  let a1 := trimSilence audio (-40)
  let a2 := normalizeVolume a1 (-20)
  let a3 := reduceNoise stft istft a2 sr
  applyHighPassFilter butter lfilter a3 sr 80

/-- `np.append(audio[0], audio[1:] - pre_emphasis * audio[:-1])` with
`pre_emphasis = 0.97`, the first step of `AudioCleaner.enhance_speech`. -/
def preEmphasis (audio : List ℝ) : List ℝ :=
  match audio with
  | [] => []
  | h :: t => h :: List.zipWith (fun cur prev => cur - 0.97 * prev) t ((h :: t).dropLast)

/-- One frequency row of the spectral subtraction in
`AudioCleaner.enhance_speech`: subtract `alpha = 2.0` times the noise
spectrum, floor at `beta = 0.01` times the original magnitude, and rebuild
with the original phase. -/
def spectralSubtractRow (nf : Nat) (row : List ℂ) : List ℂ :=
  let noise := noiseFloorOf nf row
  row.map (fun z =>
    ((max (Complex.abs z - 2 * noise) (0.01 * Complex.abs z) : ℝ) : ℂ)
      * Complex.exp (Complex.arg z * Complex.I))

/-- `AudioCleaner.enhance_speech`: pre-emphasis, then spectral subtraction
in the STFT domain with a noise spectrum estimated from the frames of the
first `int(0.5 * sr)` samples. -/
def enhanceSpeech (stft : List ℝ → List (List ℂ)) (istft : List (List ℂ) → List ℝ)
    (audio : List ℝ) (sr : Nat) : List ℝ :=
  let emphasized := preEmphasis audio
  let noiseFrames := (sr / 2) / 512
  istft ((stft emphasized).map (spectralSubtractRow noiseFrames))

/-! ### The cleaning entry point `AudioCleaner.clean_audio` -/

/-- An audio file on disk: a sample rate and a sample buffer. -/
structure AudioFile where
  rate : Nat
  samples : List ℝ

/-- A file system: paths to optional audio files. -/
def Fs : Type := List String → Option AudioFile

/-- Errors `clean_audio` can surface: the explicit `FileNotFoundError`, or
any exception a cleaning primitive raises (re-raised by the
`try/except`). -/
inductive CleanError
  | notFound
  | primitiveFailed (msg : String)
  deriving DecidableEq

/-- `AudioCleaner.clean_audio`, parametric in the cleaning pipeline so that
a raising pipeline can be modelled: check existence, generate the default
output path when none is given, load at the standard sample rate
(librosa's resampling load is the `resample` parameter), run the pipeline,
and on success write the result; any pipeline error is propagated and
nothing is written. -/
def cleanAudioWith (resample : AudioFile → Nat → List ℝ)
    (pipe : List ℝ → Nat → Except CleanError (List ℝ))
    (fs : Fs) (inputPath : List String) (outputPath? : Option (List String)) :
    Fs × Except CleanError (List String) :=
  match fs inputPath with
  | none => (fs, .error .notFound)
  | some f =>
    let outputPath := outputPath?.getD (defaultCleanedOutput inputPath)
    let audio := resample f standardSampleRate
    match pipe audio standardSampleRate with
    | .error e => (fs, .error e)
    | .ok cleaned =>
      (fun q => if q = outputPath then some ⟨standardSampleRate, cleaned⟩ else fs q,
       .ok outputPath)

/-- `AudioCleaner.clean_audio` proper: `cleanAudioWith` instantiated with
the source's (non-raising, numeric) cleaning pipeline. -/
def cleanAudio (stft : List ℝ → List (List ℂ)) (istft : List (List ℂ) → List ℝ)
    (butter : ℝ → ℝ × ℝ × ℝ) (lfilter : ℝ × ℝ × ℝ → List ℝ → List ℝ)
    (resample : AudioFile → Nat → List ℝ)
    (fs : Fs) (inputPath : List String) (outputPath? : Option (List String)) :
    Fs × Except CleanError (List String) :=
  cleanAudioWith resample
    (fun a sr => .ok (applyCleaningPipeline stft istft butter lfilter a sr))
    fs inputPath outputPath?

end Signal

/-! ### Pipeline error taxonomy (spec §7 names for the exceptions the Python
code raises: `FileNotFoundError`, stage failures, and the translator's
unsupported-language `ValueError`). -/

inductive PipeError
  | notFound
  | convertFailed
  | cleanFailed
  | transcribeFailed
  | unsupportedLanguage (lang : String)
  | translateFailed
  | saveFailed
  deriving DecidableEq

/-! ### Translator, from `translation/translator.py`

The `deep_translator.GoogleTranslator` backend is abstracted as a service
function, indexed by the attempt number so that transient failures can be
modelled; its error payload is the exception message. -/

/-- Python's `str.strip()`: remove leading and trailing whitespace.
(Implemented over the character list so that concrete strings evaluate by
kernel reduction.) -/
def pyStrip (s : String) : String :=
  String.mk (((s.data.dropWhile Char.isWhitespace).reverse.dropWhile
    Char.isWhitespace).reverse)

/-- The retry loop of `Translator._translate_chunk`: try the service up to
`fuel` more times starting at the given attempt index; the last failure is
re-raised. -/
def translateChunk (svc : Nat → String → Except String String) (text : String) :
    Nat → Nat → Except PipeError String
  | _, 0 => .error .translateFailed
  | attempt, fuel + 1 =>
    match svc attempt text with
    | .ok res => .ok res
    | .error _ =>
      if fuel = 0 then .error .translateFailed
      else translateChunk svc text (attempt + 1) fuel

/-- The sentence-ending characters of the pattern `([.!?]+)` in
`Translator._split_text_into_chunks`. -/
def isSentencePunc (c : Char) : Bool := c == '.' || c == '!' || c == '?'

/-- `re.split(r'([.!?]+)', text)`: alternating non-delimiter and delimiter
runs, keeping the (captured) delimiter runs.  Fuelled recursion; the fuel
`length + 1` always suffices since every step past the first consumes at
least one character. -/
def splitPuncFuel : Nat → List Char → List String
  | 0, _ => []
  | n + 1, cs =>
    let s := cs.takeWhile (fun c => !isSentencePunc c)
    let rest := cs.dropWhile (fun c => !isSentencePunc c)
    match rest with
    | [] => [String.mk s]
    | _ =>
      let d := rest.takeWhile isSentencePunc
      let rest2 := rest.dropWhile isSentencePunc
      String.mk s :: String.mk d :: splitPuncFuel n rest2

/-- The sentence/punctuation pairing of the `for i in range(0, len, 2)` loop
in `Translator._split_text_into_chunks`. -/
def pairUp : List String → List (String × String)
  | [] => []
  | [s] => [(s, "")]
  | s :: d :: rest => (s, d) :: pairUp rest

/-- The chunk-accumulation loop of `Translator._split_text_into_chunks`. -/
def buildChunks (chunkSize : Nat) :
    List (String × String) → String → List String → List String
  | [], current, acc =>
    if pyStrip current ≠ "" then acc ++ [pyStrip current] else acc
  | (s, p) :: rest, current, acc =>
    if chunkSize < (current ++ s ++ p).length ∧ current ≠ "" then
      buildChunks chunkSize rest (s ++ p) (acc ++ [pyStrip current])
    else
      buildChunks chunkSize rest (current ++ s ++ p) acc

/-- `Translator._split_text_into_chunks`. -/
def splitTextIntoChunks (chunkSize : Nat) (text : String) : List String :=
  buildChunks chunkSize (pairUp (splitPuncFuel (text.length + 1) text.toList)) "" []

/-- The chunk loop of `Translator._translate_chunked`: translate each chunk,
propagating the first failure. -/
def translateAll (svc : Nat → String → Except String String) :
    List String → Except PipeError (List String)
  | [] => .ok []
  | c :: rest =>
    match translateChunk svc c 0 retryAttempts with
    | .error e => .error e
    | .ok t =>
      match translateAll svc rest with
      | .error e => .error e
      | .ok ts => .ok (t :: ts)

/-- `Translator._translate_chunked`: split, translate every chunk, join the
results with a space. -/
def translateChunked (svc : Nat → String → Except String String)
    (text : String) : Except PipeError String :=
  match translateAll svc (splitTextIntoChunks translationChunkSize text) with
  | .error e => .error e
  | .ok ts => .ok (String.intercalate " " ts)

/-- `Translator.translate`: blank text (empty after stripping) returns `""`
at once; then the target language is validated against the supported set
(raising the unsupported-language error otherwise); long text is chunked,
short text goes through a single retried service call. -/
def translate (svc : Nat → String → Except String String)
    (text : String) (targetLang : String) : Except PipeError String :=
  if pyStrip text = "" then .ok ""
  else if targetLang ∉ supportedLanguages then .error (.unsupportedLanguage targetLang)
  else if translationChunkSize < text.length then translateChunked svc text
  else translateChunk svc text 0 retryAttempts

/-! ### Summarizer guard, from `summarization/summarizer.py` -/

/-- `Summarizer.summarize`: blank text returns `""`; otherwise the result of
the OpenAI / local-model / extractive chain, abstracted as `model` (those
paths call external services and never raise to the caller). -/
def summarize (model : String → String) (text : String) : String :=
  if pyStrip text = "" then "" else model text

/-! ### Orchestrator, from `app.py` (`process_audio_file`) -/

/-- The pipeline stages `process_audio_file` can invoke, in source order. -/
inductive Stage
  | convert
  | clean
  | transcribe
  | saveTimestamps
  | summarize
  | translate
  | saveSummary
  | cleanup
  deriving DecidableEq

/-- The transcript as the orchestrator consumes it: `transcript.full_text`
may be `None`. -/
structure Transcript where
  fullText : Option String
  deriving DecidableEq

/-- Observable effects of one run: stages invoked, output files persisted,
temp files deleted. -/
structure RunLog where
  invoked : List Stage
  written : List (List String)
  deleted : List (List String)
  deriving DecidableEq

/-- The collaborators of one `process_audio_file` run.  Converter,
transcriber, summarization models, translation backend, writer and the
file system's willingness to delete are external to the orchestrator and
appear as data/functions; the orchestrator logic itself is embedded
concretely below. -/
structure Env where
  inputExists : List String → Bool
  convertResult : Except PipeError (List String)
  cleanOk : Bool
  transcribeResult : Except PipeError Transcript
  modelSummary : String → String
  modelChunkSummary : String → String
  translationService : Nat → String → Except String String
  saveSummaryResult : Except PipeError (List String)
  deleteOk : List String → Bool

/-- Modelled from the spec: `OutputWriter.cleanup_temp_files` is called by
`app.py` but absent from `output/writer.py` (and from the rest of the
source tree).  The spec prescribes best-effort deletion of the registered
temp files: each path is deleted when the file system permits, and failed
deletions are logged and skipped. -/
def cleanupTempFiles (deleteOk : List String → Bool)
    (paths : List (List String)) : List (List String) :=
  paths.filter (fun p => deleteOk p)

/-- The summary `process_audio_file` computes from a transcript:
`original_text = transcript.full_text or ""`, then chunked summarization for
text longer than the configured chunk size, plain summarization
otherwise. -/
def summaryOf (env : Env) (transcript : Transcript) : String :=
  let originalText := transcript.fullText.getD ""
  if summarizationChunkSize < originalText.length then
    env.modelChunkSummary originalText
  else
    summarize env.modelSummary originalText

/-- `process_audio_file`: convert, clean, transcribe, attempt the
timestamped-transcript side write (its errors are swallowed; the method it
calls is absent from the writer, so nothing is persisted), summarize,
translate, write the output, then filter the registered temp files to those
under `TEMP_DIR` and delete them best-effort inside a `try/except` that
only logs.  Stage failures propagate immediately. -/
def processAudioFile (env : Env) (audioPath : List String)
    (targetLanguage : String) : Except PipeError (List String) × RunLog :=
  if env.inputExists audioPath = false then (.error .notFound, ⟨[], [], []⟩)
  else
    match env.convertResult with
    | .error e => (.error e, ⟨[.convert], [], []⟩)
    | .ok convertedPath =>
      if env.cleanOk = false then (.error .cleanFailed, ⟨[.convert, .clean], [], []⟩)
      else
        let cleanedPath := defaultCleanedOutput convertedPath
        let tempFiles := [convertedPath, cleanedPath]
        match env.transcribeResult with
        | .error e => (.error e, ⟨[.convert, .clean, .transcribe], [], []⟩)
        | .ok transcript =>
          let summary := summaryOf env transcript
          match translate env.translationService summary targetLanguage with
          | .error e =>
            (.error e,
             ⟨[.convert, .clean, .transcribe, .saveTimestamps, .summarize, .translate],
              [], []⟩)
          | .ok _translated =>
            match env.saveSummaryResult with
            | .error e =>
              (.error e,
               ⟨[.convert, .clean, .transcribe, .saveTimestamps, .summarize,
                 .translate, .saveSummary], [], []⟩)
            | .ok outputPath =>
              let safeTemp := tempFiles.filter
                (fun p => decide (tempDir ∈ parentsOf p ∨ parentOf p = tempDir))
              let deleted := cleanupTempFiles env.deleteOk safeTemp
              (.ok outputPath,
               ⟨[.convert, .clean, .transcribe, .saveTimestamps, .summarize,
                 .translate, .saveSummary, .cleanup],
                [outputPath], deleted⟩)

/-! ### Definitions used only to state claims and build concrete runs -/

noncomputable section ClaimDefs

/-- Written from the claim's words (claim C2), for comparison with the
source's `normalizeVolume`: gain `min(10 · targetAmplitude / rms, 10.0)`
with `targetAmplitude = 10 ^ (targetDb / 20)`, unchanged input on zero
RMS. -/
def claimNormalizeVolume (audio : List ℝ) (targetDb : ℝ) : List ℝ :=
  let rms := rmsOf audio
  if rms = 0 then audio
  else
    let targetAmplitude := (10 : ℝ) ^ (targetDb / 20)
    let gain := min (10 * targetAmplitude / rms) 10
    audio.map (fun x => x * gain)

/-- A degenerate STFT used to instantiate the abstract librosa parameter in
concrete runs. -/
def trivialStft : List ℝ → List (List ℂ) := fun _ => []

/-- A degenerate inverse STFT for concrete runs. -/
def trivialIstft : List (List ℂ) → List ℝ := fun _ => []

/-- Degenerate Butterworth coefficients for concrete runs. -/
def trivialButter : ℝ → ℝ × ℝ × ℝ := fun _ => (0, 0, 0)

/-- A pass-through `lfilter` for concrete runs. -/
def trivialLfilter : ℝ × ℝ × ℝ → List ℝ → List ℝ := fun _ l => l

/-- A loader that returns the stored samples unchanged, for concrete runs. -/
def trivialResample : AudioFile → Nat → List ℝ := fun f _ => f.samples

/-- A file system holding the single file `BASE/in.wav`. -/
def fsOne : Fs := fun p => if p = ["BASE", "in.wav"] then some ⟨44100, [1, 1]⟩ else none

/-- The empty file system. -/
def fsNone : Fs := fun _ => none

end ClaimDefs

/-- A run whose transcription yields the whitespace-only full text `"   "`,
with every collaborator otherwise succeeding. -/
def noSpeechEnv : Env where
  inputExists := fun _ => true
  convertResult := .ok (tempDir ++ ["meeting.wav"])
  cleanOk := true
  transcribeResult := .ok ⟨some "   "⟩
  modelSummary := fun _ => "model summary"
  modelChunkSummary := fun t => t
  translationService := fun _ _ => .ok "translated"
  saveSummaryResult := .ok ["BASE", "output", "summary_1.txt"]
  deleteOk := fun _ => true

/-- A run with a non-blank transcript and summary, used to drive the
translator with an unsupported target language. -/
def unsupportedLangEnv : Env where
  inputExists := fun _ => true
  convertResult := .ok (tempDir ++ ["talk.wav"])
  cleanOk := true
  transcribeResult := .ok ⟨some "hello there"⟩
  modelSummary := fun _ => "A short summary."
  modelChunkSummary := fun t => t
  translationService := fun _ _ => .ok "ignored"
  saveSummaryResult := .ok ["BASE", "output", "summary.txt"]
  deleteOk := fun _ => true

/-- A fully succeeding run whose temp files all get deleted. -/
def cleanupEnv : Env where
  inputExists := fun _ => true
  convertResult := .ok (tempDir ++ ["talk.wav"])
  cleanOk := true
  transcribeResult := .ok ⟨some "hello there"⟩
  modelSummary := fun _ => "A short summary."
  modelChunkSummary := fun t => t
  translationService := fun _ _ => .ok "resumen"
  saveSummaryResult := .ok ["BASE", "output", "summary.txt"]
  deleteOk := fun _ => true

/-! ## Theorems -/

/-- Helper: non-blank text and an unsupported target make `translate` raise
the unsupported-language error, whatever the backend does. -/
theorem translate_unsupported_aux (svc : Nat → String → Except String String)
    (text target : String) (h1 : pyStrip text ≠ "")
    (h2 : target ∉ supportedLanguages) :
    translate svc text target = .error (.unsupportedLanguage target) := by
  simp [translate, h1, h2]

/-- C10: for every text that is blank after stripping (including the empty
string) and every target language code, `Translator.translate` returns `""`
without raising and without contacting the translation service: the result
is `.ok ""` for an arbitrary service backend, before target-language
validation. -/
theorem translate_blank_text_returns_empty
    (svc : Nat → String → Except String String) (text targetLang : String)
    (h : pyStrip text = "") : translate svc text targetLang = .ok "" := by
  simp [translate, h]

theorem translate_blank_text_returns_empty_witness :
    pyStrip "   " = "" ∧
      translate (fun _ _ => .error "service down") "   " "xx" = .ok "" :=
  ⟨by decide, translate_blank_text_returns_empty _ "   " "xx" (by decide)⟩

/-- C7 counterexample: the claim quantifies over every text, but for the
empty text and the unsupported code `"xx"` the translator returns `.ok ""`
instead of raising the unsupported-language error, because the emptiness
check runs first. -/
theorem translate_empty_text_unsupported_code_no_raise :
    translate (fun _ _ => .error "network down") "" "xx" = .ok "" := rfl

/-- C7 (amended): for every text that is non-blank after stripping and
every target code outside the supported set, `Translator.translate` raises
the unsupported-language error; and a pipeline run whose computed summary
is non-blank aborts on that error with the output writer never invoked and
no output file written. -/
theorem translator_unsupported_language_spec :
    (∀ (svc : Nat → String → Except String String) (text target : String),
      pyStrip text ≠ "" → target ∉ supportedLanguages →
      translate svc text target = .error (.unsupportedLanguage target))
    ∧ (∀ (env : Env) (path : List String) (lang : String)
        (conv : List String) (tr : Transcript),
        env.inputExists path = true →
        env.convertResult = .ok conv →
        env.cleanOk = true →
        env.transcribeResult = .ok tr →
        pyStrip (summaryOf env tr) ≠ "" →
        lang ∉ supportedLanguages →
        (processAudioFile env path lang).1 = .error (.unsupportedLanguage lang)
        ∧ Stage.saveSummary ∉ (processAudioFile env path lang).2.invoked
        ∧ (processAudioFile env path lang).2.written = []) := by
  refine ⟨translate_unsupported_aux, ?_⟩
  intro env path lang conv tr h1 h2 h3 h4 h5 h6
  have ht := translate_unsupported_aux env.translationService (summaryOf env tr) lang h5 h6
  refine ⟨?_, ?_, ?_⟩ <;>
    simp [processAudioFile, h1, h2, h3, h4, ht]

theorem translator_unsupported_language_spec_witness :
    translate (fun _ _ => .ok "x") "A short summary." "xx" =
      .error (.unsupportedLanguage "xx")
    ∧ (processAudioFile unsupportedLangEnv ["BASE", "talk.mp3"] "xx").1 =
        .error (.unsupportedLanguage "xx")
    ∧ Stage.saveSummary ∉
        (processAudioFile unsupportedLangEnv ["BASE", "talk.mp3"] "xx").2.invoked
    ∧ (processAudioFile unsupportedLangEnv ["BASE", "talk.mp3"] "xx").2.written = [] := by
  have h := translator_unsupported_language_spec.2 unsupportedLangEnv
    ["BASE", "talk.mp3"] "xx" (tempDir ++ ["talk.wav"]) ⟨some "hello there"⟩
    rfl rfl rfl rfl (by decide) (by decide)
  exact ⟨translator_unsupported_language_spec.1 _ _ _ (by decide) (by decide),
    h.1, h.2.1, h.2.2⟩

/-- C6: the code violates the claim.  On a run whose transcript full text is
the whitespace-only `"   "`, `process_audio_file` does not stop with a
no-speech error: it invokes summarization (which reduces the text to `""`),
invokes translation, invokes the output writer, writes the output file, and
completes successfully.  There is no guard between transcription and
summarization in `app.py`. -/
theorem whitespace_transcript_completes_pipeline :
    (processAudioFile noSpeechEnv ["BASE", "meeting.mp3"] "en").1 =
      .ok ["BASE", "output", "summary_1.txt"]
    ∧ Stage.summarize ∈ (processAudioFile noSpeechEnv ["BASE", "meeting.mp3"] "en").2.invoked
    ∧ Stage.translate ∈ (processAudioFile noSpeechEnv ["BASE", "meeting.mp3"] "en").2.invoked
    ∧ Stage.saveSummary ∈ (processAudioFile noSpeechEnv ["BASE", "meeting.mp3"] "en").2.invoked
    ∧ (processAudioFile noSpeechEnv ["BASE", "meeting.mp3"] "en").2.written =
        [["BASE", "output", "summary_1.txt"]] := by
  refine ⟨rfl, ?_, ?_, ?_, rfl⟩ <;> decide

/-- C9: the code violates the claim.  The temp path generated for the
cleaned file is `TEMP_DIR / f"{input_path.stem}_cleaned.wav"`, a function of
the input file's stem alone: any two invocations whose inputs share a stem
— in particular two runs over the same input file — are assigned the same
temp path, with no per-run unique component. -/
theorem cleaned_output_path_depends_only_on_stem (p q : List String)
    (h : stemOf (p.getLastD "") = stemOf (q.getLastD "")) :
    defaultCleanedOutput p = defaultCleanedOutput q := by
  unfold defaultCleanedOutput
  rw [h]

theorem cleaned_output_path_depends_only_on_stem_witness :
    (["run1", "interview.wav"] : List String) ≠ ["run2", "interview.wav"]
    ∧ defaultCleanedOutput ["run1", "interview.wav"] =
        defaultCleanedOutput ["run2", "interview.wav"]
    ∧ defaultCleanedOutput ["run1", "interview.wav"] =
        ["BASE", "temp", "interview_cleaned.wav"] :=
  ⟨by decide, cleaned_output_path_depends_only_on_stem _ _ (by decide), by decide⟩

/-- Helper: the decibel-to-amplitude conversion at the default normalize
target, `10 ** (-20 / 20) = 1/10`. -/
theorem rpow_target_db : (10 : ℝ) ^ ((-20 : ℝ) / 20) = 1 / 10 := by
  rw [show ((-20 : ℝ) / 20) = ((-1 : ℤ) : ℝ) by norm_num, Real.rpow_intCast]
  norm_num

/-- Helper: the decibel-to-amplitude conversion at the default trim
threshold, `10 ** (-40 / 20) = 1/100`. -/
theorem rpow_trim_db : (10 : ℝ) ^ ((-40 : ℝ) / 20) = 1 / 100 := by
  rw [show ((-40 : ℝ) / 20) = ((-2 : ℤ) : ℝ) by norm_num, Real.rpow_intCast]
  norm_num

/-- Helper: RMS of a one-sample buffer with a non-negative sample. -/
theorem rmsOf_single (x : ℝ) (hx : 0 ≤ x) : rmsOf [x] = x := by
  simp [rmsOf, mean]
  exact Real.sqrt_sq hx

/-- C2 counterexample: on the one-sample buffer `[1/20]` (RMS `1/20`), the
source applies gain `min(targetAmplitude/rms, 10) = 2`, while the claim's
formula `min(10·targetAmplitude/rms, 10)` would apply gain `10`; the
outputs `[1/10]` and `[1/2]` differ. -/
theorem normalize_volume_claim_counterexample :
    normalizeVolume [(1 : ℝ) / 20] (-20) = [(1 : ℝ) / 10]
    ∧ claimNormalizeVolume [(1 : ℝ) / 20] (-20) = [(1 : ℝ) / 2]
    ∧ normalizeVolume [(1 : ℝ) / 20] (-20) ≠ claimNormalizeVolume [(1 : ℝ) / 20] (-20) := by
  have hr : rmsOf [(1 : ℝ) / 20] = 1 / 20 := rmsOf_single _ (by norm_num)
  have h1 : normalizeVolume [(1 : ℝ) / 20] (-20) = [(1 : ℝ) / 10] := by
    rw [normalizeVolume]
    rw [hr, rpow_target_db]
    rw [if_pos (by norm_num : (0 : ℝ) < 1 / 20)]
    norm_num [min_def]
  have h2 : claimNormalizeVolume [(1 : ℝ) / 20] (-20) = [(1 : ℝ) / 2] := by
    rw [claimNormalizeVolume]
    rw [hr, rpow_target_db]
    rw [if_neg (by norm_num : ¬ ((1 : ℝ) / 20 = 0))]
    norm_num [min_def]
  refine ⟨h1, h2, ?_⟩
  rw [h1, h2]
  intro h
  have := List.head_eq_of_cons_eq h
  norm_num at this

/-- C2 (amended): RMS normalization with target −20 dB returns the input
unchanged when the RMS is zero, and otherwise scales every sample by
`gain = min(targetAmplitude / rms, 10.0)` with
`targetAmplitude = 10 ^ (targetDb / 20)`; the applied gain is always
`≤ 10.0`. -/
theorem normalize_volume_spec (audio : List ℝ) :
    (rmsOf audio = 0 → normalizeVolume audio (-20) = audio)
    ∧ (0 < rmsOf audio →
        normalizeVolume audio (-20) =
          audio.map (fun x => x * min (((10 : ℝ) ^ ((-20 : ℝ) / 20)) / rmsOf audio) 10)
        ∧ min (((10 : ℝ) ^ ((-20 : ℝ) / 20)) / rmsOf audio) 10 ≤ 10) := by
  constructor
  · intro h
    rw [normalizeVolume, h]
    simp
  · intro h
    constructor
    · rw [normalizeVolume, if_pos h]
    · exact min_le_right _ _

theorem normalize_volume_spec_witness :
    normalizeVolume [(0 : ℝ)] (-20) = [(0 : ℝ)]
    ∧ normalizeVolume [(1 : ℝ) / 20] (-20) =
        [(1 : ℝ) / 20].map
          (fun x => x * min (((10 : ℝ) ^ ((-20 : ℝ) / 20)) / rmsOf [(1 : ℝ) / 20]) 10)
    ∧ min (((10 : ℝ) ^ ((-20 : ℝ) / 20)) / rmsOf [(1 : ℝ) / 20]) 10 ≤ 10 := by
  have h0 : rmsOf [(0 : ℝ)] = 0 := rmsOf_single 0 le_rfl
  have h1 : rmsOf [(1 : ℝ) / 20] = 1 / 20 := rmsOf_single _ (by norm_num)
  have hpos : 0 < rmsOf [(1 : ℝ) / 20] := by rw [h1]; norm_num
  exact ⟨(normalize_volume_spec _).1 h0, ((normalize_volume_spec _).2 hpos).1,
    ((normalize_volume_spec _).2 hpos).2⟩

/-- Helper: in a strictly increasing list every element is at most the last
one. -/
theorem le_getLast_of_pairwise_lt :
    ∀ (l : List Nat) (hl : l ≠ []), List.Pairwise (· < ·) l →
      ∀ x ∈ l, x ≤ l.getLast hl := by
  intro l
  induction l with
  | nil => intro hl; exact absurd rfl hl
  | cons a t ih =>
    intro hl hp x hx
    cases t with
    | nil =>
      simp only [List.mem_singleton] at hx
      subst hx
      simp [List.getLast]
    | cons b t2 =>
      rw [List.getLast_cons (List.cons_ne_nil b t2)]
      rcases List.mem_cons.mp hx with hx | hx
      · subst hx
        exact le_of_lt ((List.pairwise_cons.mp hp).1 _
          (List.getLast_mem (List.cons_ne_nil b t2)))
      · exact ih (List.cons_ne_nil b t2) (List.pairwise_cons.mp hp).2 x hx

/-- C3: silence trim at −40 dB never lengthens the buffer; if no sample's
absolute amplitude exceeds `10 ^ (-40/20)` the buffer is returned
unchanged; and if some sample exceeds the threshold, the result is exactly
the inclusive sub-range from the first exceeding index to the last
one (every sample before the first and after the last being at or below
the threshold). -/
theorem trim_silence_spec (audio : List ℝ) :
    (trimSilence audio (-40)).length ≤ audio.length
    ∧ ((∀ i, i < audio.length → |audio.getD i 0| ≤ (10 : ℝ) ^ ((-40 : ℝ) / 20)) →
        trimSilence audio (-40) = audio)
    ∧ (∀ k, k < audio.length → (10 : ℝ) ^ ((-40 : ℝ) / 20) < |audio.getD k 0| →
        ∃ s e, s ≤ e ∧ e < audio.length
          ∧ (10 : ℝ) ^ ((-40 : ℝ) / 20) < |audio.getD s 0|
          ∧ (10 : ℝ) ^ ((-40 : ℝ) / 20) < |audio.getD e 0|
          ∧ (∀ j, j < s → |audio.getD j 0| ≤ (10 : ℝ) ^ ((-40 : ℝ) / 20))
          ∧ (∀ j, e < j → j < audio.length → |audio.getD j 0| ≤ (10 : ℝ) ^ ((-40 : ℝ) / 20))
          ∧ trimSilence audio (-40) = (audio.take (e + 1)).drop s) := by
  have hmem : ∀ i : ℕ, i ∈ (List.range audio.length).filter
      (fun i => decide ((10 : ℝ) ^ ((-40 : ℝ) / 20) < |audio.getD i 0|)) ↔
      (i < audio.length ∧ (10 : ℝ) ^ ((-40 : ℝ) / 20) < |audio.getD i 0|) := by
    intro i
    simp [List.mem_filter, List.mem_range]
  have hpw : List.Pairwise (· < ·) ((List.range audio.length).filter
      (fun i => decide ((10 : ℝ) ^ ((-40 : ℝ) / 20) < |audio.getD i 0|))) :=
    List.Pairwise.filter _ (List.pairwise_lt_range audio.length)
  cases hns : (List.range audio.length).filter
      (fun i => decide ((10 : ℝ) ^ ((-40 : ℝ) / 20) < |audio.getD i 0|)) with
  | nil =>
    rw [hns] at hmem
    have heq : trimSilence audio (-40) = audio := by
      simp only [trimSilence]
      rw [hns]
    refine ⟨by rw [heq], fun _ => heq, ?_⟩
    intro k hk1 hk2
    exact absurd ((hmem k).mpr ⟨hk1, hk2⟩) (List.not_mem_nil k)
  | cons s rest =>
    rw [hns] at hmem hpw
    have heq : trimSilence audio (-40) =
        (audio.take ((s :: rest).getLast (List.cons_ne_nil s rest) + 1)).drop s := by
      simp only [trimSilence]
      rw [hns]
    have hs := (hmem s).mp (List.mem_cons_self s rest)
    have he := (hmem _).mp (List.getLast_mem (List.cons_ne_nil s rest))
    have hle : ∀ x ∈ s :: rest, x ≤ (s :: rest).getLast (List.cons_ne_nil s rest) :=
      le_getLast_of_pairwise_lt _ (List.cons_ne_nil s rest) hpw
    have hsle : ∀ x ∈ s :: rest, s ≤ x := by
      intro x hx
      rcases List.mem_cons.mp hx with hx | hx
      · exact hx.ge
      · exact le_of_lt ((List.pairwise_cons.mp hpw).1 x hx)
    have hbefore : ∀ j, j < s → |audio.getD j 0| ≤ (10 : ℝ) ^ ((-40 : ℝ) / 20) := by
      intro j hj
      by_contra hcon
      push_neg at hcon
      have hjmem := (hmem j).mpr ⟨lt_trans hj hs.1, hcon⟩
      exact absurd (hsle j hjmem) (by omega)
    have hafter : ∀ j, (s :: rest).getLast (List.cons_ne_nil s rest) < j →
        j < audio.length → |audio.getD j 0| ≤ (10 : ℝ) ^ ((-40 : ℝ) / 20) := by
      intro j hj hjlen
      by_contra hcon
      push_neg at hcon
      have hjmem := (hmem j).mpr ⟨hjlen, hcon⟩
      exact absurd (hle j hjmem) (by omega)
    refine ⟨?_, ?_, ?_⟩
    · rw [heq]
      simp [List.length_drop, List.length_take]
    · intro hall
      exact absurd hs.2 (not_lt.mpr (hall s hs.1))
    · intro k hk1 hk2
      exact ⟨s, (s :: rest).getLast (List.cons_ne_nil s rest),
        hsle _ (List.getLast_mem (List.cons_ne_nil s rest)), he.1, hs.2, he.2,
        hbefore, hafter, heq⟩

theorem trim_silence_spec_witness :
    (trimSilence [(0 : ℝ), (1 : ℝ) / 2, 0] (-40)).length ≤ 3
    ∧ trimSilence [(0 : ℝ), 0] (-40) = [(0 : ℝ), 0] := by
  constructor
  · have h := (trim_silence_spec [(0 : ℝ), (1 : ℝ) / 2, 0]).1
    simpa using h
  · refine (trim_silence_spec [(0 : ℝ), 0]).2.1 ?_
    intro i hi
    rw [rpow_trim_db]
    simp only [List.length_cons, List.length_nil] at hi
    interval_cases i <;> norm_num

/-- C4: the spectral gate equals keep-or-zero masking: a time-frequency bin
is kept exactly when its magnitude strictly exceeds twice that frequency
row's noise floor (the mean magnitude over the frames of the first
`int(0.5·sr)` samples, `sr/2/512` frames), the kept bins retaining both
magnitude and phase, and the result is rebuilt via the inverse STFT.  The
equation holds for every buffer and rate, including buffers whose STFT has
fewer frames than the noise window (and an empty frame set): the function
is total and the noise floor degenerates to the mean of the frames that
exist. -/
theorem reduce_noise_spec (stft : List ℝ → List (List ℂ))
    (istft : List (List ℂ) → List ℝ) (audio : List ℝ) (sr : Nat) :
    reduceNoise stft istft audio sr =
      istft ((stft audio).map (fun row =>
        row.map (fun z =>
          if noiseFloorOf ((sr / 2) / 512) row * 2 < Complex.abs z then z else 0))) := by
  simp only [reduceNoise]
  congr 1
  refine List.map_congr_left (fun row _ => ?_)
  simp only [spectralGateRow]
  refine List.map_congr_left (fun z _ => ?_)
  by_cases hc : noiseFloorOf ((sr / 2) / 512) row * 2 < Complex.abs z
  · rw [if_pos hc, if_pos hc]
    exact Complex.abs_mul_exp_arg_mul_I z
  · rw [if_neg hc, if_neg hc]
    simp

/-- C5: speech enhancement is pre-emphasis (`y[0] = x[0]`,
`y[n] = x[n] − 0.97·x[n−1]`, length preserved) followed, in the STFT
domain, by per-bin spectral subtraction whose output magnitude is
`max(|z| − 2·noise, 0.01·|z|)` (over-subtraction `alpha = 2`, floor
`beta = 0.01`) with the original phase preserved whenever the resulting
magnitude is positive, reconstructed via the inverse STFT. -/
theorem enhance_speech_spec (audio : List ℝ) (sr : Nat) :
    (preEmphasis audio).length = audio.length
    ∧ (∀ i, i < audio.length →
        (preEmphasis audio).getD i 0 =
          if i = 0 then audio.getD 0 0
          else audio.getD i 0 - 0.97 * audio.getD (i - 1) 0)
    ∧ (∀ (stft : List ℝ → List (List ℂ)) (istft : List (List ℂ) → List ℝ),
        enhanceSpeech stft istft audio sr =
          istft ((stft (preEmphasis audio)).map (spectralSubtractRow ((sr / 2) / 512))))
    ∧ (∀ (nf : Nat) (row : List ℂ) (i : Nat), i < row.length →
        Complex.abs ((spectralSubtractRow nf row).getD i 0) =
          max (Complex.abs (row.getD i 0) - 2 * noiseFloorOf nf row)
            (0.01 * Complex.abs (row.getD i 0))
        ∧ (0 < max (Complex.abs (row.getD i 0) - 2 * noiseFloorOf nf row)
              (0.01 * Complex.abs (row.getD i 0)) →
            Complex.arg ((spectralSubtractRow nf row).getD i 0) =
              Complex.arg (row.getD i 0))) := by
  refine ⟨?_, ?_, fun stft istft => rfl, ?_⟩
  · cases audio with
    | nil => rfl
    | cons h t =>
      simp [preEmphasis, List.length_zipWith, List.length_dropLast]
  · intro i hi
    cases audio with
    | nil => simp at hi
    | cons h t =>
      cases i with
      | zero => simp [preEmphasis]
      | succ j =>
        have hj : j < t.length := by
          simp only [List.length_cons] at hi
          omega
        have hj' : j < (h :: t).length := by
          simp only [List.length_cons]
          omega
        have hzlen : j < (List.zipWith (fun cur prev => cur - 0.97 * prev) t
            ((h :: t).dropLast)).length := by
          simp only [List.length_zipWith, List.length_dropLast, List.length_cons]
          omega
        simp only [preEmphasis, List.getD_cons_succ]
        rw [List.getD_eq_getElem _ _ hzlen, List.getElem_zipWith, List.getElem_dropLast]
        rw [if_neg (Nat.succ_ne_zero j)]
        rw [show j + 1 - 1 = j from rfl]
        rw [List.getD_eq_getElem t _ hj, List.getD_eq_getElem (h :: t) _ hj']
  · intro nf row i hi
    have hlen : i < (spectralSubtractRow nf row).length := by
      simpa [spectralSubtractRow] using hi
    rw [List.getD_eq_getElem _ _ hlen, List.getD_eq_getElem _ _ hi]
    have hmap : (spectralSubtractRow nf row)[i] =
        ((max (Complex.abs row[i] - 2 * noiseFloorOf nf row)
          (0.01 * Complex.abs row[i]) : ℝ) : ℂ)
          * Complex.exp ((Complex.arg row[i] : ℂ) * Complex.I) := by
      simp only [spectralSubtractRow, List.getElem_map]
    rw [hmap]
    have hr0 : 0 ≤ max (Complex.abs row[i] - 2 * noiseFloorOf nf row)
        (0.01 * Complex.abs row[i]) :=
      le_trans (by positivity) (le_max_right _ _)
    constructor
    · rw [map_mul Complex.abs, Complex.abs_ofReal, Complex.abs_exp]
      have hre : ((Complex.arg row[i] : ℂ) * Complex.I).re = 0 := by
        simp [Complex.mul_I_re]
      rw [hre, Real.exp_zero, mul_one, abs_of_nonneg hr0]
    · intro hpos
      rw [Complex.arg_real_mul _ hpos]
      rw [Complex.exp_mul_I]
      exact Complex.arg_cos_add_sin_mul_I (Complex.arg_mem_Ioc _)

theorem enhance_speech_spec_witness :
    (preEmphasis [(2 : ℝ), 4]).getD 1 0 = 4 - 0.97 * 2
    ∧ Complex.abs ((spectralSubtractRow 1 [(0 : ℂ)]).getD 0 0) =
        max (Complex.abs (([(0 : ℂ)]).getD 0 0) - 2 * noiseFloorOf 1 [(0 : ℂ)])
          (0.01 * Complex.abs (([(0 : ℂ)]).getD 0 0)) := by
  constructor
  · have h := (enhance_speech_spec [(2 : ℝ), 4] 16000).2.1 1 (by norm_num)
    rw [h]
    norm_num
  · exact ((enhance_speech_spec [] 0).2.2.2 1 [(0 : ℂ)] 0 (by norm_num)).1

/-- Helper: the registration filter's condition
(`TEMP_DIR in p.parents or p.parent == TEMP_DIR`) forces the path to lie
strictly under the temp directory. -/
theorem under_tempDir_of_cond {p : List String}
    (h : tempDir ∈ parentsOf p ∨ parentOf p = tempDir) :
    tempDir <+: p ∧ p ≠ tempDir := by
  rcases h with h | h
  · simp only [parentsOf, List.mem_map, List.mem_range] at h
    obtain ⟨k, hk, hTake⟩ := h
    constructor
    · exact hTake ▸ List.take_prefix k p
    · intro he
      rw [he] at hk hTake
      have hlen := congrArg List.length hTake
      simp only [List.length_take] at hlen
      omega
  · constructor
    · rw [← h]
      exact List.dropLast_prefix p
    · intro he
      rw [he] at h
      exact absurd h (by decide)

/-- C8: the cleanup phase deletes only registered paths that lie under the
designated temp directory (every deleted path satisfies the registration
filter, hence is a strict extension of `TEMP_DIR`), and the run's primary
outcome is unchanged by cleanup: the result of the run does not depend on
which deletions the file system permits, so a cleanup error is never
propagated out of the orchestrator. -/
theorem cleanup_safety_spec :
    (∀ (env : Env) (path : List String) (lang : String) (p : List String),
      p ∈ (processAudioFile env path lang).2.deleted →
      (tempDir ∈ parentsOf p ∨ parentOf p = tempDir) ∧ tempDir <+: p ∧ p ≠ tempDir)
    ∧ (∀ (env : Env) (path : List String) (lang : String) (g : List String → Bool),
        (processAudioFile env path lang).1 =
          (processAudioFile { env with deleteOk := g } path lang).1) := by
  constructor
  · intro env path lang p hp
    have hcond : tempDir ∈ parentsOf p ∨ parentOf p = tempDir := by
      simp only [processAudioFile] at hp
      split at hp
      · simp at hp
      · split at hp
        · simp at hp
        · split at hp
          · simp at hp
          · split at hp
            · simp at hp
            · split at hp
              · simp at hp
              · split at hp
                · simp at hp
                · simp only [cleanupTempFiles, List.mem_filter,
                    decide_eq_true_eq] at hp
                  exact hp.1.2
    exact ⟨hcond, under_tempDir_of_cond hcond⟩
  · intro env path lang g
    obtain ⟨ie, cr, co, trr, ms, mcs, ts, ssr, dok⟩ := env
    simp only [processAudioFile]
    by_cases hie : ie path = false
    · simp [hie]
    · simp only [if_neg hie]
      cases cr with
      | error e => rfl
      | ok conv =>
        dsimp only
        by_cases hco : co = false
        · simp [hco]
        · simp only [if_neg hco]
          cases trr with
          | error e => rfl
          | ok tr =>
            dsimp only
            have hsum : summaryOf ⟨ie, .ok conv, co, .ok tr, ms, mcs, ts, ssr, g⟩ tr
                = summaryOf ⟨ie, .ok conv, co, .ok tr, ms, mcs, ts, ssr, dok⟩ tr := rfl
            rw [hsum]
            cases htr : translate ts
                (summaryOf ⟨ie, .ok conv, co, .ok tr, ms, mcs, ts, ssr, dok⟩ tr) lang with
            | error e => rfl
            | ok tv =>
              cases ssr with
              | error e => rfl
              | ok op => rfl

theorem cleanup_safety_spec_witness :
    ((tempDir ∈ parentsOf (tempDir ++ ["talk_cleaned.wav"])
        ∨ parentOf (tempDir ++ ["talk_cleaned.wav"]) = tempDir)
      ∧ tempDir <+: tempDir ++ ["talk_cleaned.wav"]
      ∧ tempDir ++ ["talk_cleaned.wav"] ≠ tempDir)
    ∧ (processAudioFile cleanupEnv ["BASE", "talk.mp3"] "en").1 =
        (processAudioFile { cleanupEnv with deleteOk := fun _ => false }
          ["BASE", "talk.mp3"] "en").1 := by
  exact ⟨cleanup_safety_spec.1 cleanupEnv ["BASE", "talk.mp3"] "en" _ (by decide),
    cleanup_safety_spec.2 cleanupEnv ["BASE", "talk.mp3"] "en" (fun _ => false)⟩

/-- C1: `clean_audio` on a missing input fails with the not-found error and
leaves the file system untouched; on an existing input it loads the file at
the canonical processing sample rate, applies exactly the four primitives
in the order trim silence → normalize volume → reduce noise → high-pass
filter, and writes the result as a new file at the generated output path,
changing no other path (in particular not the input, which differs from the
output path); and if the pipeline raises, the error propagates and the file
system is unchanged — no partial output is persisted. -/
theorem clean_audio_spec (stft : List ℝ → List (List ℂ))
    (istft : List (List ℂ) → List ℝ) (butter : ℝ → ℝ × ℝ × ℝ)
    (lfilter : ℝ × ℝ × ℝ → List ℝ → List ℝ)
    (resample : AudioFile → Nat → List ℝ) (fs : Fs) (input : List String) :
    (fs input = none →
      ∀ pipe, cleanAudioWith resample pipe fs input none = (fs, .error .notFound))
    ∧ (∀ f, fs input = some f →
        cleanAudio stft istft butter lfilter resample fs input none =
          (fun q => if q = defaultCleanedOutput input
            then some ⟨standardSampleRate,
              applyCleaningPipeline stft istft butter lfilter
                (resample f standardSampleRate) standardSampleRate⟩
            else fs q,
           .ok (defaultCleanedOutput input))
        ∧ (∀ q, q ≠ defaultCleanedOutput input →
            (cleanAudio stft istft butter lfilter resample fs input none).1 q = fs q))
    ∧ (∀ f, fs input = some f → ∀ pipe e,
        pipe (resample f standardSampleRate) standardSampleRate = .error e →
        cleanAudioWith resample pipe fs input none = (fs, .error e))
    ∧ (∀ (a : List ℝ) (sr : Nat),
        applyCleaningPipeline stft istft butter lfilter a sr =
          applyHighPassFilter butter lfilter
            (reduceNoise stft istft (normalizeVolume (trimSilence a (-40)) (-20)) sr)
            sr 80) := by
  refine ⟨?_, ?_, ?_, fun a sr => rfl⟩
  · intro h pipe
    simp only [cleanAudioWith, h]
  · intro f hf
    constructor
    · simp only [cleanAudio, cleanAudioWith, hf, Option.getD_none]
    · intro q hq
      simp only [cleanAudio, cleanAudioWith, hf, Option.getD_none]
      simp [hq]
  · intro f hf pipe e he
    simp only [cleanAudioWith, hf, Option.getD_none, he]

/-- Helper: with the degenerate inverse STFT and pass-through filter, the
cleaning pipeline evaluates to the empty buffer (the inner primitives feed
an STFT that discards its argument). -/
theorem pipeline_trivial_eval (a : List ℝ) (sr : Nat) :
    applyCleaningPipeline trivialStft trivialIstft trivialButter trivialLfilter a sr
      = [] := rfl

theorem clean_audio_spec_witness :
    cleanAudioWith trivialResample
        (fun a sr => .ok (applyCleaningPipeline trivialStft trivialIstft
          trivialButter trivialLfilter a sr))
        fsNone ["BASE", "in.wav"] none = (fsNone, .error .notFound)
    ∧ (cleanAudio trivialStft trivialIstft trivialButter trivialLfilter trivialResample
        fsOne ["BASE", "in.wav"] none).2 = .ok (defaultCleanedOutput ["BASE", "in.wav"])
    ∧ (cleanAudio trivialStft trivialIstft trivialButter trivialLfilter trivialResample
        fsOne ["BASE", "in.wav"] none).1 (defaultCleanedOutput ["BASE", "in.wav"])
        = some ⟨standardSampleRate, []⟩
    ∧ (cleanAudio trivialStft trivialIstft trivialButter trivialLfilter trivialResample
        fsOne ["BASE", "in.wav"] none).1 ["BASE", "in.wav"] = some ⟨44100, [1, 1]⟩
    ∧ cleanAudioWith trivialResample (fun _ _ => .error (.primitiveFailed "boom"))
        fsOne ["BASE", "in.wav"] none = (fsOne, .error (.primitiveFailed "boom")) := by
  have hf : fsOne ["BASE", "in.wav"] = some ⟨44100, [1, 1]⟩ := by
    simp [fsOne]
  have hmain := (clean_audio_spec trivialStft trivialIstft trivialButter trivialLfilter
    trivialResample fsOne ["BASE", "in.wav"]).2.1 ⟨44100, [1, 1]⟩ hf
  have hnone := (clean_audio_spec trivialStft trivialIstft trivialButter trivialLfilter
    trivialResample fsNone ["BASE", "in.wav"]).1 rfl
    (fun a sr => .ok (applyCleaningPipeline trivialStft trivialIstft
      trivialButter trivialLfilter a sr))
  have herr := (clean_audio_spec trivialStft trivialIstft trivialButter trivialLfilter
    trivialResample fsOne ["BASE", "in.wav"]).2.2.1 ⟨44100, [1, 1]⟩ hf
    (fun _ _ => .error (.primitiveFailed "boom")) (.primitiveFailed "boom") rfl
  refine ⟨hnone, ?_, ?_, ?_, herr⟩
  · rw [hmain.1]
  · rw [hmain.1]
    simp [pipeline_trivial_eval]
  · exact (hmain.2 ["BASE", "in.wav"] (by decide)).trans hf

end SmartAudio
